import Mathlib

/-!
Shallow embedding of `scripts/prepare_db_snapshots.py`, the database snapshot
archive subsystem of the AhAveragesPy repository.

Modelling conventions:
* Text (the decompressed archive content, metadata lines, dump bodies, paths)
  is modelled as `List Char`.  Python reads the archive in text mode after
  gzip decompression; we model everything at the decoded-text level.
* `gzip` append-mode writes are modelled by their observable effect on the
  decompressed content: appending a member to a gzip file makes the
  decompressed whole equal to the old content followed by the new plaintext.
* Fallible steps (sqlite connection, commit, VACUUM INTO, temp-file replace,
  fallback VACUUM, final close, dump subprocess) are modelled by an oracle of
  failure flags; a raised Python exception at a step corresponds to the flag
  being `true`, and the model then follows exactly the `try/except` structure
  of the source.
* `json.dumps(..., separators=(',', ':'))` with its default `ensure_ascii=True`
  escaping is modelled character-for-character (`escapeChar`), including
  `\uXXXX` escapes and surrogate pairs; `json.loads` on the emitted line is
  modelled by `parseMetadata`.
-/

/-! ### Line splitting and joining, as Python `content.split('\n')` / `'\n'.join(lines)` -/

/-- Python `content.split('\n')` on decoded text. -/
def splitNL : List Char → List (List Char)
  | [] => [[]]
  | c :: rest =>
    if c = '\n' then [] :: splitNL rest
    else
      match splitNL rest with
      | l :: ls => (c :: l) :: ls
      | [] => [[c]]

/-- Python `'\n'.join(lines)`. -/
def joinNL : List (List Char) → List Char
  | [] => []
  | [l] => l
  | l :: ls => l ++ '\n' :: joinNL ls

/-! ### Decimal integer rendering and parsing

`json.dumps` renders Python ints in decimal with a leading `-` for negatives;
a JSON parser reads them back.  We model both directions and prove the round
trip, which the metadata-line round trip (claim C8) builds on. -/

/-- Decimal digits of `n`, least significant first (empty for `0`). -/
def natDigitsRev : Nat → List Nat
  | 0 => []
  | n + 1 => (n + 1) % 10 :: natDigitsRev ((n + 1) / 10)
decreasing_by exact Nat.div_lt_self (Nat.succ_pos n) (by omega)

/-- The character for a decimal digit `d < 10`. -/
def digitChar (d : Nat) : Char := Char.ofNat (48 + d)

/-- Decimal rendering of a natural number, as Python `str`/`json.dumps`. -/
def renderNat (n : Nat) : List Char :=
  if n = 0 then ['0'] else (natDigitsRev n).reverse.map digitChar

/-- Decimal rendering of an integer, as Python `str`/`json.dumps`. -/
def renderInt (i : Int) : List Char :=
  if i < 0 then '-' :: renderNat (-i).toNat else renderNat i.toNat

/-- Greedily take leading decimal digits, returning their values and the rest. -/
def takeDigits : List Char → List Nat × List Char
  | [] => ([], [])
  | c :: rest =>
    if c.isDigit then
      ((c.toNat - 48) :: (takeDigits rest).1, (takeDigits rest).2)
    else ([], c :: rest)

/-- Parse a nonempty run of decimal digits into a natural number. -/
def parseNat (l : List Char) : Option (Nat × List Char) :=
  match takeDigits l with
  | ([], _) => none
  | (ds, r) => some (ds.foldl (fun a d => a * 10 + d) 0, r)

/-- Parse an optionally `-`-signed decimal integer. -/
def parseInt : List Char → Option (Int × List Char)
  | [] => none
  | c :: r =>
    if c = '-' then (parseNat r).map (fun p => (-(p.1 : Int), p.2))
    else (parseNat (c :: r)).map (fun p => ((p.1 : Int), p.2))

/-! ### JSON string escaping, as `json.dumps` with its default `ensure_ascii=True`

Python escapes `"` and `\` with a backslash, uses the short escapes for
backspace, form feed, newline, carriage return and tab, writes every other
character below `0x20` or above `0x7E` as `\uXXXX` (a surrogate pair for
code points above `0xFFFF`), and leaves printable ASCII as is. -/

/-- Lower-case hexadecimal digit character, as CPython emits in `\uXXXX`. -/
def hexDigitChar (n : Nat) : Char :=
  if n < 10 then Char.ofNat (48 + n) else Char.ofNat (87 + n)

/-- Four-digit hexadecimal rendering of `n < 0x10000`. -/
def hex4 (n : Nat) : List Char :=
  [hexDigitChar (n / 4096 % 16), hexDigitChar (n / 256 % 16),
   hexDigitChar (n / 16 % 16), hexDigitChar (n % 16)]

/-- Escaping of one character by `json.dumps` (default `ensure_ascii=True`). -/
def escapeChar (c : Char) : List Char :=
  if c = '"' then ['\\', '"']
  else if c = '\\' then ['\\', '\\']
  else if c = '\x08' then ['\\', 'b']
  else if c = '\x0c' then ['\\', 'f']
  else if c = '\n' then ['\\', 'n']
  else if c = '\x0d' then ['\\', 'r']
  else if c = '\t' then ['\\', 't']
  else if c.toNat < 0x20 ∨ (0x7F ≤ c.toNat ∧ c.toNat < 0x10000) then
    '\\' :: 'u' :: hex4 c.toNat
  else if c.toNat < 0x7F then [c]
  else
    '\\' :: 'u' :: hex4 (0xD800 + (c.toNat - 0x10000) / 1024) ++
      '\\' :: 'u' :: hex4 (0xDC00 + (c.toNat - 0x10000) % 1024)

/-- Escaping of a whole string body by `json.dumps`. -/
def escape : List Char → List Char
  | [] => []
  | c :: cs => escapeChar c ++ escape cs

/-- Value of one hexadecimal digit character (JSON accepts both cases). -/
def hexVal (c : Char) : Option Nat :=
  if 48 ≤ c.toNat ∧ c.toNat ≤ 57 then some (c.toNat - 48)
  else if 97 ≤ c.toNat ∧ c.toNat ≤ 102 then some (c.toNat - 87)
  else if 65 ≤ c.toNat ∧ c.toNat ≤ 70 then some (c.toNat - 55)
  else none

/-- JSON simple escape codes: the character denoted by `\\e` for the
single-letter escapes accepted by `json.loads`. -/
def escCode (e : Char) : Option Char :=
  if e = '"' then some '"'
  else if e = '\\' then some '\\'
  else if e = '/' then some '/'
  else if e = 'b' then some '\x08'
  else if e = 'f' then some '\x0c'
  else if e = 'n' then some '\n'
  else if e = 'r' then some '\x0d'
  else if e = 't' then some '\t'
  else none

mutual

/-- JSON string-body parser: decodes escapes up to the closing `"` and returns
the decoded text together with the input remaining after that quote. -/
def unescape : List Char → Option (List Char × List Char)
  | [] => none
  | c :: rest =>
    if c = '"' then some ([], rest)
    else if c = '\\' then unescapeEsc rest
    else (unescape rest).map (fun p => (c :: p.1, p.2))
termination_by l => l.length

/-- Decode one backslash escape (the backslash itself already consumed). -/
def unescapeEsc : List Char → Option (List Char × List Char)
  | [] => none
  | e :: r =>
    if e = 'u' then unescapeU r
    else
      match escCode e with
      | some d => (unescape r).map (fun p => (d :: p.1, p.2))
      | none => none
termination_by l => l.length

/-- Decode the four hex digits after `\u`, handling surrogate pairs. -/
def unescapeU : List Char → Option (List Char × List Char)
  | h1 :: h2 :: h3 :: h4 :: r2 =>
    match hexVal h1, hexVal h2, hexVal h3, hexVal h4 with
    | some v1, some v2, some v3, some v4 =>
      let n := v1 * 4096 + v2 * 256 + v3 * 16 + v4
      if n < 0xD800 then (unescape r2).map (fun p => (Char.ofNat n :: p.1, p.2))
      else if n < 0xDC00 then unescapeLow n r2
      else if n < 0xE000 then none
      else (unescape r2).map (fun p => (Char.ofNat n :: p.1, p.2))
    | _, _, _, _ => none
  | _ => none
termination_by l => l.length

/-- After a high surrogate `n`, decode the following `\uXXXX` low surrogate
and combine the pair into one code point. -/
def unescapeLow (n : Nat) : List Char → Option (List Char × List Char)
  | b1 :: b2 :: g1 :: g2 :: g3 :: g4 :: r3 =>
    if b1 = '\\' ∧ b2 = 'u' then
      match hexVal g1, hexVal g2, hexVal g3, hexVal g4 with
      | some w1, some w2, some w3, some w4 =>
        let m := w1 * 4096 + w2 * 256 + w3 * 16 + w4
        if 0xDC00 ≤ m ∧ m < 0xE000 then
          (unescape r3).map (fun p =>
            (Char.ofNat ((n - 0xD800) * 1024 + (m - 0xDC00) + 0x10000) :: p.1, p.2))
        else none
      | _, _, _, _ => none
    else none
  | _ => none
termination_by l => l.length

end

/-! ### The metadata line (Metadata Framer) and its JSON re-parse

Lines 83-88 of `prepare_db_snapshots.py` build the metadata dict and render
it with `json.dumps` using separators comma and colon: one line, keys
`timestamp`, `source`, `size_before_optimization` in insertion order, no
spaces, `ensure_ascii` escaping. -/

/-- The characters of a string literal. -/
def lit (s : String) : List Char := s.data

/-- The metadata line emitted by the Framer (without the trailing newline). -/
def renderMetadata (ts : Int) (src : List Char) (sz : Int) : List Char :=
  lit "\x7b\"timestamp\":" ++ renderInt ts ++ lit ",\"source\":\"" ++ escape src ++
    lit "\",\"size_before_optimization\":" ++ renderInt sz ++ lit "\x7d"

/-- Expect an exact literal prefix; return the remainder. -/
def dropLit : List Char → List Char → Option (List Char)
  | [], l => some l
  | _ :: _, [] => none
  | p :: ps, c :: cs => if c = p then dropLit ps cs else none

/-- JSON parse of a metadata line of the exact shape the Framer emits,
returning the `timestamp`, `source` and `size_before_optimization` values. -/
def parseMetadata (l : List Char) : Option (Int × List Char × Int) :=
  match dropLit (lit "\x7b\"timestamp\":") l with
  | none => none
  | some r1 =>
    match parseInt r1 with
    | none => none
    | some (ts, r2) =>
      match dropLit (lit ",\"source\":\"") r2 with
      | none => none
      | some r3 =>
        match unescape r3 with
        | none => none
        | some (s, r4) =>
          match dropLit (lit ",\"size_before_optimization\":") r4 with
          | none => none
          | some r5 =>
            match parseInt r5 with
            | none => none
            | some (sz, r6) =>
              match dropLit (lit "\x7d") r6 with
              | none => none
              | some r7 => if r7.isEmpty then some (ts, s, sz) else none

/-! ### The Archive Reader (`restore_latest`, lines 127-147)

The reader splits the decompressed text into lines, collects the index of
every line whose stripped form starts with an opening brace, and joins the
lines after the last such index; with no such line the whole content is the
dump. -/

/-- Python `str.strip` whitespace, restricted to the ASCII whitespace
characters other than `'\n'` (a line never contains `'\n'`). -/
def isPySpace (c : Char) : Bool :=
  c = ' ' || c = '\t' || c = '\x0b' || c = '\x0c' || c = '\x0d'

/-- Python `line.strip().startswith('\x7b')`: the first non-whitespace character of
the line is an opening brace. -/
def isHeaderLine (l : List Char) : Bool :=
  (l.dropWhile isPySpace).head? = some '\x7b'

/-- The loop `for i, line in enumerate(lines): if line.strip().startswith(...)`
collecting indices, starting the count at `i`. -/
def jsonIdxFrom (i : Nat) : List (List Char) → List Nat
  | [] => []
  | l :: ls =>
    if isHeaderLine l then i :: jsonIdxFrom (i + 1) ls
    else jsonIdxFrom (i + 1) ls

/-- The `json_line_indices` list of `restore_latest`. -/
def jsonLineIndices (lines : List (List Char)) : List Nat := jsonIdxFrom 0 lines

/-- The text `restore_latest` replays, as a function of the decompressed
archive content: everything after the last metadata header line if one
exists, otherwise the whole content (legacy format). -/
def restoreExtract (content : List Char) : List Char :=
  let lines := splitNL content
  match (jsonLineIndices lines).getLast? with
  | some k => joinNL (lines.drop (k + 1))
  | none => content

/-- One framed record's plaintext: metadata line, `LF`, dump body, `LF LF`.
This is `combined_bytes = metadata_bytes + dump_bytes + b'\n\n'` of
`optimize_and_dump` (the metadata line carries its own trailing newline). -/
def framedRecord (m body : List Char) : List Char :=
  m ++ '\n' :: (body ++ ['\n', '\n'])

/-- Decompressed content of an archive holding the given framed records in
order (gzip member concatenation). -/
def archiveContent (records : List (List Char × List Char)) : List Char :=
  (records.map (fun r => framedRecord r.1 r.2)).flatten

/-! ### The snapshot pipeline (`optimize_and_dump`, lines 45-112)

Fallible steps are driven by an oracle of failure flags.  The model follows
the source's `try/except` nesting:

* line 51: a missing database file returns `None` before anything runs;
* line 55 `sqlite3.connect` and line 62 `con.commit()` sit directly under the
  *outer* `try`, so their failures jump to the per-file handler (line 110);
* lines 58-61: `PRAGMA optimize` failure is swallowed (`pragmaFails` has no
  observable effect; the hint changes no modelled state either way);
* lines 63-69, atomic compaction: `VACUUM INTO` creates the temporary
  `.vacuuming` file; `con.close()` / `temp_file.replace` failing afterwards
  (`replaceFails`, which also covers the rename failing because `VACUUM INTO`
  resolved `temp_file.name` against the current working directory) leaves the
  temp file in place and falls into the in-place fallback; a successful
  replace renames the temp file over the database, whose size becomes the
  compacted size.  A failure of the reconnect at line 68 after a successful
  replace only makes the fallback `VACUUM` hit a closed connection, which is
  swallowed at line 74, and the second `con.close()` at line 76 on a closed
  connection is a no-op, so it has no modelled effect;
* lines 70-75: the fallback `VACUUM` plus commit either compacts in place or
  is swallowed;
* line 76 `con.close()` is again directly under the outer `try`;
* line 79: the dump subprocess raises `CalledProcessError` (line 108);
* line 80: `orig = db_path.stat().st_size` reads the size *after* the
  compaction steps above;
* lines 83-101: the metadata line, the framed record and the gzip append. -/

structure Oracle where
  connectFails : Bool
  pragmaFails : Bool
  commitFails : Bool
  vacuumIntoFails : Bool
  replaceFails : Bool
  fallbackFails : Bool
  finalCloseFails : Bool
  dumpFails : Bool
  dumpOutput : List Char
  timestamp : Int
  compactedSize : Nat

/-- Observable file-system state for one database and its archive. -/
structure FsState where
  dbPath : List Char
  dbExists : Bool
  dbSize : Nat
  archive : Option (List Char)
  tempExists : Bool

/-- Exit paths of `optimize_and_dump`: `noDb` is the early `return None` of
line 52, `dumpError` the `CalledProcessError` handler of line 108,
`unexpectedError` the generic handler of line 110, `success` the
`return dump_path` of line 107.  The Python return value is the dump path on
`success` and `None` on the other three. -/
inductive DumpResult
  | noDb
  | unexpectedError
  | dumpError
  | success
deriving DecidableEq

/-- Lines 71-74: in-place `VACUUM` plus commit, failures swallowed. -/
def fallbackVacuum (o : Oracle) (s : FsState) : FsState :=
  if o.fallbackFails then s else { s with dbSize := o.compactedSize }

/-- Lines 63-75: atomic compaction with in-place fallback. -/
def compactionStep (o : Oracle) (s : FsState) : FsState :=
  if o.vacuumIntoFails then fallbackVacuum o s
  else
    let s1 := { s with tempExists := true }
    if o.replaceFails then fallbackVacuum o s1
    else { s1 with tempExists := false, dbSize := o.compactedSize }

/-- Python `optimize_and_dump(db_path)`: optimize, dump, append a framed record. -/
def optimize_and_dump (o : Oracle) (s : FsState) : DumpResult × FsState :=
  if !s.dbExists then (.noDb, s)
  else if o.connectFails then (.unexpectedError, s)
  else if o.commitFails then (.unexpectedError, s)
  else
    let s1 := compactionStep o s
    if o.finalCloseFails then (.unexpectedError, s1)
    else if o.dumpFails then (.dumpError, s1)
    else
      let combined :=
        framedRecord (renderMetadata o.timestamp s.dbPath (s1.dbSize : Int)) o.dumpOutput
      (.success, { s1 with archive := some (s1.archive.getD [] ++ combined) })

/-- Diagnostics printed by `optimize_and_dump` on each exit path. -/
inductive LogMsg
  | extractionError
  | unexpectedMsg
  | summaryLine
deriving DecidableEq

def logOf : DumpResult → List LogMsg
  | .noDb => []
  | .dumpError => [.extractionError]
  | .unexpectedError => [.unexpectedMsg]
  | .success => [.summaryLine]

/-- The Python return value of `optimize_and_dump`, reduced to the only
distinction its caller ever inspects (`if out:`): the dump path (truthy,
modelled `some ()`) on success, `None` otherwise. -/
def pyReturn : DumpResult → Option Unit
  | .success => some ()
  | _ => none

/-- The `produced` list built by `main` (lines 175-180): one entry per file
whose `optimize_and_dump` returned a (truthy) path. -/
def producedList : List (Oracle × FsState) → List Unit
  | [] => []
  | f :: fs =>
    match pyReturn (optimize_and_dump f.1 f.2).1 with
    | some u => u :: producedList fs
    | none => producedList fs

/-- Lines 181-187: exit code of the snapshot loop, and whether the
"No databases found to snapshot." message was reported. -/
def mainSnapshot (files : List (Oracle × FsState)) : Nat × Bool :=
  if (producedList files).isEmpty then (0, true) else (0, false)

/-- What `main` ends up doing with its command line. -/
inductive MainAction
  | restoreAct
  | helpAct
  | snapshotAct
deriving DecidableEq

/-- Python `main()` (lines 161-187): `--restore` with exactly four argv entries runs
the restore path, `-h`/`--help` prints usage, and everything else falls
through to the snapshot loop.  `restoreOk` abstracts the result of
`restore_latest` on the given pair of paths. -/
def mainEntry (argv : List String) (restoreOk : Bool)
    (files : List (Oracle × FsState)) : Nat × MainAction :=
  if argv.length > 1 then
    if argv.getD 1 "" = "--restore" ∧ argv.length = 4 then
      (if restoreOk then 0 else 1, .restoreAct)
    else if argv.getD 1 "" = "-h" ∨ argv.getD 1 "" = "--help" then (0, .helpAct)
    else ((mainSnapshot files).1, .snapshotAct)
  else ((mainSnapshot files).1, .snapshotAct)

/-! ### Concrete fixtures for witnesses and counterexamples -/

/-- A run in which every fallible step succeeds: a 1000-byte database that
compaction shrinks to 500 bytes, dump text `"S"`, capture time `5`. -/
def allOkOracle : Oracle :=
  { connectFails := false, pragmaFails := false, commitFails := false,
    vacuumIntoFails := false, replaceFails := false, fallbackFails := false,
    finalCloseFails := false, dumpFails := false, dumpOutput := ['S'],
    timestamp := 5, compactedSize := 500 }

def exampleDb : FsState :=
  { dbPath := lit "database.db", dbExists := true, dbSize := 1000,
    archive := some [], tempExists := false }

def commitFailOracle : Oracle := { allOkOracle with commitFails := true }

def dumpFailOracle : Oracle := { allOkOracle with dumpFails := true }

def replaceFailOracle : Oracle := { allOkOracle with replaceFails := true }

def absentDb : FsState := { exampleDb with dbExists := false }

def oldArchiveDb : FsState := { exampleDb with archive := some (lit "OLD\n") }

def noDbFile : Oracle × FsState := (allOkOracle, absentDb)

theorem splitNL_cons_nl (x : List Char) : splitNL ('\n' :: x) = [] :: splitNL x := by
  simp [splitNL]

theorem splitNL_cons_ne (c : Char) (x : List Char) (hc : c ≠ '\n')
    (a : List Char) (as : List (List Char)) (h : splitNL x = a :: as) :
    splitNL (c :: x) = (c :: a) :: as := by
  simp [splitNL, hc, h]

theorem splitNL_ne_nil (l : List Char) : splitNL l ≠ [] := by
  induction l with
  | nil => simp [splitNL]
  | cons c rest ih =>
    simp only [splitNL]
    split
    · simp
    · cases h : splitNL rest with
      | nil => simp
      | cons a as => simp

theorem splitNL_cons_shape (x : List Char) :
    ∃ a as, splitNL x = a :: as := by
  cases h : splitNL x with
  | nil => exact absurd h (splitNL_ne_nil x)
  | cons a as => exact ⟨a, as, rfl⟩

/-- Splitting distributes over a separator: the text before a `'\n'` and the
text after it split independently. -/
theorem splitNL_append_sep (xs ys : List Char) :
    splitNL (xs ++ '\n' :: ys) = splitNL xs ++ splitNL ys := by
  induction xs with
  | nil => simp [splitNL_cons_nl, splitNL]
  | cons c rest ih =>
    by_cases hc : c = '\n'
    · subst hc
      rw [List.cons_append, splitNL_cons_nl, splitNL_cons_nl, ih, List.cons_append]
    · obtain ⟨a, as, h⟩ := splitNL_cons_shape rest
      have h2 : splitNL (rest ++ '\n' :: ys) = a :: (as ++ splitNL ys) := by
        rw [ih, h, List.cons_append]
      rw [List.cons_append, splitNL_cons_ne c _ hc _ _ h2,
        splitNL_cons_ne c _ hc _ _ h, List.cons_append]

/-- A newline-free prefix becomes the first line. -/
theorem splitNL_noNLHead (m rest : List Char) (hm : '\n' ∉ m) :
    splitNL (m ++ '\n' :: rest) = m :: splitNL rest := by
  induction m with
  | nil => simp [splitNL_cons_nl]
  | cons c cs ih =>
    have hc : c ≠ '\n' := fun h => hm (h ▸ List.mem_cons_self c cs)
    have hcs : '\n' ∉ cs := fun h => hm (List.mem_cons_of_mem c h)
    rw [List.cons_append, splitNL_cons_ne c _ hc _ _ (ih hcs)]

theorem joinNL_splitNL (x : List Char) : joinNL (splitNL x) = x := by
  induction x with
  | nil => rfl
  | cons c rest ih =>
    obtain ⟨a, as, h⟩ := splitNL_cons_shape rest
    by_cases hc : c = '\n'
    · subst hc
      rw [splitNL_cons_nl, h]
      rw [h] at ih
      show '\n' :: joinNL (a :: as) = '\n' :: rest
      rw [ih]
    · rw [splitNL_cons_ne c _ hc _ _ h]
      rw [h] at ih
      cases as with
      | nil =>
        show c :: a = c :: rest
        simp only [joinNL] at ih
        rw [ih]
      | cons b bs =>
        show (c :: a) ++ '\n' :: joinNL (b :: bs) = c :: rest
        simp only [joinNL] at ih
        rw [List.cons_append, ih]

theorem joinNL_append (xs ys : List (List Char)) (hx : xs ≠ []) (hy : ys ≠ []) :
    joinNL (xs ++ ys) = joinNL xs ++ '\n' :: joinNL ys := by
  induction xs with
  | nil => exact absurd rfl hx
  | cons a as ih =>
    cases as with
    | nil =>
      cases ys with
      | nil => exact absurd rfl hy
      | cons b bs => simp [joinNL]
    | cons a' as' =>
      have h2 := ih (by simp)
      show a ++ '\n' :: joinNL ((a' :: as') ++ ys) =
        (a ++ '\n' :: joinNL (a' :: as')) ++ '\n' :: joinNL ys
      have h3 : joinNL (a' :: (as' ++ ys)) = joinNL (a' :: as') ++ '\n' :: joinNL ys := h2
      simp [h3, List.append_assoc]

theorem natDigitsRev_lt10 (n : Nat) : ∀ d ∈ natDigitsRev n, d < 10 := by
  induction n using Nat.strong_induction_on with
  | _ n ih =>
    cases n with
    | zero => simp [natDigitsRev]
    | succ m =>
      intro d hd
      rw [natDigitsRev] at hd
      rcases List.mem_cons.mp hd with h | h
      · omega
      · exact ih ((m + 1) / 10) (Nat.div_lt_self (Nat.succ_pos m) (by omega)) d h

theorem digitChar_isDigit : ∀ d, d < 10 → (digitChar d).isDigit = true := by decide

theorem digitChar_toNat : ∀ d, d < 10 → (digitChar d).toNat - 48 = d := by decide

theorem digitChar_ne_minus : ∀ d, d < 10 → digitChar d ≠ '-' := by decide

theorem digitChar_ne_nl : ∀ d, d < 10 → digitChar d ≠ '\n' := by decide

theorem takeDigits_digits (ds : List Nat) (h : ∀ d ∈ ds, d < 10) (rest : List Char)
    (hrest : ∀ c, rest.head? = some c → c.isDigit = false) :
    takeDigits (ds.map digitChar ++ rest) = (ds, rest) := by
  induction ds with
  | nil =>
    cases rest with
    | nil => rfl
    | cons c r =>
      have := hrest c rfl
      simp [takeDigits, this]
  | cons d ds' ih =>
    have hd : d < 10 := h d (List.mem_cons_self d ds')
    have h1 : (digitChar d).isDigit = true := digitChar_isDigit d hd
    have h2 : (digitChar d).toNat - 48 = d := digitChar_toNat d hd
    have ih' := ih (fun x hx => h x (List.mem_cons_of_mem d hx))
    simp [takeDigits, h1, h2, ih']

theorem foldl_digits_natDigitsRev (n : Nat) :
    ((natDigitsRev n).reverse).foldl (fun a d => a * 10 + d) 0 = n := by
  induction n using Nat.strong_induction_on with
  | _ n ih =>
    cases n with
    | zero => simp [natDigitsRev]
    | succ m =>
      rw [natDigitsRev, List.reverse_cons, List.foldl_append,
        ih ((m + 1) / 10) (Nat.div_lt_self (Nat.succ_pos m) (by omega))]
      simp only [List.foldl_cons, List.foldl_nil]
      omega

theorem natDigitsRev_ne_nil (n : Nat) (h0 : n ≠ 0) : natDigitsRev n ≠ [] := by
  cases n with
  | zero => exact absurd rfl h0
  | succ m => rw [natDigitsRev]; simp

theorem parseNat_renderNat (n : Nat) (rest : List Char)
    (hrest : ∀ c, rest.head? = some c → c.isDigit = false) :
    parseNat (renderNat n ++ rest) = some (n, rest) := by
  by_cases h0 : n = 0
  · subst h0
    have e : renderNat 0 = List.map digitChar [0] := by decide
    rw [e]
    simp only [parseNat]
    rw [takeDigits_digits [0] (by simp) rest hrest]
    simp
  · have e : renderNat n = List.map digitChar ((natDigitsRev n).reverse) := by
      rw [renderNat, if_neg h0]
    have hb : ∀ d ∈ (natDigitsRev n).reverse, d < 10 := fun d hd =>
      natDigitsRev_lt10 n d (List.mem_reverse.mp hd)
    rw [e]
    simp only [parseNat]
    rw [takeDigits_digits _ hb rest hrest]
    obtain ⟨d, ds, hds⟩ : ∃ d ds, (natDigitsRev n).reverse = d :: ds := by
      cases hrev : (natDigitsRev n).reverse with
      | nil =>
        have : natDigitsRev n = [] := by
          have := congrArg List.reverse hrev
          simpa using this
        exact absurd this (natDigitsRev_ne_nil n h0)
      | cons d ds => exact ⟨d, ds, rfl⟩
    rw [hds]
    show some ((d :: ds).foldl (fun a d => a * 10 + d) 0, rest) = some (n, rest)
    rw [← hds, foldl_digits_natDigitsRev n]

theorem renderNat_head_digit (n : Nat) :
    ∃ d tl, renderNat n = digitChar d :: tl ∧ d < 10 := by
  by_cases h0 : n = 0
  · subst h0
    exact ⟨0, [], by decide, by omega⟩
  · obtain ⟨d, ds, hds⟩ : ∃ d ds, (natDigitsRev n).reverse = d :: ds := by
      cases hrev : (natDigitsRev n).reverse with
      | nil =>
        have : natDigitsRev n = [] := by
          have := congrArg List.reverse hrev
          simpa using this
        exact absurd this (natDigitsRev_ne_nil n h0)
      | cons d ds => exact ⟨d, ds, rfl⟩
    refine ⟨d, ds.map digitChar, ?_, ?_⟩
    · rw [renderNat, if_neg h0, hds]; rfl
    · exact natDigitsRev_lt10 n d (List.mem_reverse.mp (hds ▸ List.mem_cons_self d ds))

theorem parseInt_renderInt (i : Int) (rest : List Char)
    (hrest : ∀ c, rest.head? = some c → c.isDigit = false) :
    parseInt (renderInt i ++ rest) = some (i, rest) := by
  by_cases hneg : i < 0
  · rw [renderInt, if_pos hneg, List.cons_append]
    simp only [parseInt, if_pos rfl]
    rw [parseNat_renderNat _ rest hrest]
    simp only [Option.map_some']
    have hi : (-(((-i).toNat : Nat) : Int)) = i := by omega
    rw [hi]
    simp
  · rw [renderInt, if_neg hneg]
    obtain ⟨d, tl, he, hd⟩ := renderNat_head_digit i.toNat
    rw [he, List.cons_append]
    simp only [parseInt, if_neg (digitChar_ne_minus d hd)]
    rw [← List.cons_append, ← he, parseNat_renderNat _ rest hrest]
    simp only [Option.map_some']
    have hi : (((i.toNat : Nat) : Int)) = i := by omega
    rw [hi]

theorem char_valid_toNat (c : Char) :
    c.toNat < 0xD800 ∨ (0xDFFF < c.toNat ∧ c.toNat < 0x110000) := by
  rcases c.valid with h | ⟨h1, h2⟩
  · left
    have h' : c.val.toNat < (0xd800 : UInt32).toNat := h
    simpa using h'
  · right
    refine ⟨?_, ?_⟩
    · have h' : (0xdfff : UInt32).toNat < c.val.toNat := h1
      simpa using h'
    · have h' : c.val.toNat < (0x110000 : UInt32).toNat := h2
      simpa using h'

theorem hexVal_hexDigitChar : ∀ n, n < 16 → hexVal (hexDigitChar n) = some n := by decide

theorem hexDigitChar_ne_nl : ∀ n, n < 16 → hexDigitChar n ≠ '\n' := by decide

theorem unescape_quote (rest : List Char) : unescape ('"' :: rest) = some ([], rest) := by
  simp [unescape]

theorem unescape_other (c : Char) (rest : List Char) (h1 : c ≠ '"') (h2 : c ≠ '\\') :
    unescape (c :: rest) = (unescape rest).map (fun p => (c :: p.1, p.2)) := by
  rw [unescape]
  rw [if_neg h1, if_neg h2]

theorem unescape_esc (e : Char) (d : Char) (t : List Char) (he : escCode e = some d)
    (hu : e ≠ 'u') :
    unescape ('\\' :: e :: t) = (unescape t).map (fun p => (d :: p.1, p.2)) := by
  rw [unescape]
  simp only [if_neg (by decide : ¬ ('\\' : Char) = '"'), if_pos rfl]
  rw [unescapeEsc, if_neg hu, he]
  simp

theorem unescape_u_bmp (a b d e : Char) (v1 v2 v3 v4 : Nat) (t : List Char)
    (e1 : hexVal a = some v1) (e2 : hexVal b = some v2)
    (e3 : hexVal d = some v3) (e4 : hexVal e = some v4)
    (hn : v1 * 4096 + v2 * 256 + v3 * 16 + v4 < 0xD800 ∨
      0xDFFF < v1 * 4096 + v2 * 256 + v3 * 16 + v4) :
    unescape ('\\' :: 'u' :: a :: b :: d :: e :: t) =
      (unescape t).map
        (fun p => (Char.ofNat (v1 * 4096 + v2 * 256 + v3 * 16 + v4) :: p.1, p.2)) := by
  rw [unescape]
  simp only [if_neg (by decide : ¬ ('\\' : Char) = '"'), if_pos rfl]
  rw [unescapeEsc, if_pos rfl, unescapeU, e1, e2, e3, e4]
  rcases hn with h | h
  · simp [h]
  · have h1 : ¬ (v1 * 4096 + v2 * 256 + v3 * 16 + v4 < 0xD800) := by omega
    have h2 : ¬ (v1 * 4096 + v2 * 256 + v3 * 16 + v4 < 0xDC00) := by omega
    have h3 : ¬ (v1 * 4096 + v2 * 256 + v3 * 16 + v4 < 0xE000) := by omega
    simp [h1, h2, h3]

theorem unescape_u_pair (a b d e a' b' d' e' : Char) (v1 v2 v3 v4 w1 w2 w3 w4 : Nat)
    (t : List Char)
    (e1 : hexVal a = some v1) (e2 : hexVal b = some v2)
    (e3 : hexVal d = some v3) (e4 : hexVal e = some v4)
    (f1 : hexVal a' = some w1) (f2 : hexVal b' = some w2)
    (f3 : hexVal d' = some w3) (f4 : hexVal e' = some w4)
    (hn : 0xD800 ≤ v1 * 4096 + v2 * 256 + v3 * 16 + v4 ∧
      v1 * 4096 + v2 * 256 + v3 * 16 + v4 < 0xDC00)
    (hm : 0xDC00 ≤ w1 * 4096 + w2 * 256 + w3 * 16 + w4 ∧
      w1 * 4096 + w2 * 256 + w3 * 16 + w4 < 0xE000) :
    unescape ('\\' :: 'u' :: a :: b :: d :: e :: '\\' :: 'u' :: a' :: b' :: d' :: e' :: t) =
      (unescape t).map (fun p =>
        (Char.ofNat ((v1 * 4096 + v2 * 256 + v3 * 16 + v4 - 0xD800) * 1024 +
          (w1 * 4096 + w2 * 256 + w3 * 16 + w4 - 0xDC00) + 0x10000) :: p.1, p.2)) := by
  rw [unescape]
  simp only [if_neg (by decide : ¬ ('\\' : Char) = '"'), if_pos rfl]
  rw [unescapeEsc, if_pos rfl, unescapeU, e1, e2, e3, e4]
  have h1 : ¬ (v1 * 4096 + v2 * 256 + v3 * 16 + v4 < 0xD800) := by omega
  have h2 : v1 * 4096 + v2 * 256 + v3 * 16 + v4 < 0xDC00 := hn.2
  simp only [h1, h2, if_neg, if_pos, ite_false, ite_true]
  rw [unescapeLow, if_pos ⟨rfl, rfl⟩, f1, f2, f3, f4]
  simp [hm]

/-- Decoding inverts `json.dumps` escaping, one character at a time. -/
theorem unescape_escapeChar (c : Char) (t : List Char) :
    unescape (escapeChar c ++ t) = (unescape t).map (fun p => (c :: p.1, p.2)) := by
  rw [escapeChar]
  split_ifs with h1 h2 h3 h4 h5 h6 h7 h8 h9
  · subst h1
    simp only [List.cons_append, List.nil_append]
    exact unescape_esc '"' '"' t (by decide) (by decide)
  · subst h2
    simp only [List.cons_append, List.nil_append]
    exact unescape_esc '\\' '\\' t (by decide) (by decide)
  · subst h3
    simp only [List.cons_append, List.nil_append]
    exact unescape_esc 'b' '\x08' t (by decide) (by decide)
  · subst h4
    simp only [List.cons_append, List.nil_append]
    exact unescape_esc 'f' '\x0c' t (by decide) (by decide)
  · subst h5
    simp only [List.cons_append, List.nil_append]
    exact unescape_esc 'n' '\n' t (by decide) (by decide)
  · subst h6
    simp only [List.cons_append, List.nil_append]
    exact unescape_esc 'r' '\x0d' t (by decide) (by decide)
  · subst h7
    simp only [List.cons_append, List.nil_append]
    exact unescape_esc 't' '\t' t (by decide) (by decide)
  · have hlt : c.toNat < 0x10000 := by
      rcases h8 with h | ⟨_, h⟩
      · omega
      · exact h
    have e1 := hexVal_hexDigitChar (c.toNat / 4096 % 16) (Nat.mod_lt _ (by omega))
    have e2 := hexVal_hexDigitChar (c.toNat / 256 % 16) (Nat.mod_lt _ (by omega))
    have e3 := hexVal_hexDigitChar (c.toNat / 16 % 16) (Nat.mod_lt _ (by omega))
    have e4 := hexVal_hexDigitChar (c.toNat % 16) (Nat.mod_lt _ (by omega))
    have hrec : c.toNat / 4096 % 16 * 4096 + c.toNat / 256 % 16 * 256 +
        c.toNat / 16 % 16 * 16 + c.toNat % 16 = c.toNat := by omega
    have hside : c.toNat / 4096 % 16 * 4096 + c.toNat / 256 % 16 * 256 +
        c.toNat / 16 % 16 * 16 + c.toNat % 16 < 0xD800 ∨
        0xDFFF < c.toNat / 4096 % 16 * 4096 + c.toNat / 256 % 16 * 256 +
          c.toNat / 16 % 16 * 16 + c.toNat % 16 := by
      rw [hrec]
      rcases char_valid_toNat c with h | ⟨h, _⟩
      · exact Or.inl h
      · exact Or.inr h
    simp only [hex4, List.cons_append, List.nil_append]
    rw [unescape_u_bmp _ _ _ _ _ _ _ _ t e1 e2 e3 e4 hside, hrec, Char.ofNat_toNat]
  · simp only [List.cons_append, List.nil_append]
    exact unescape_other c t h1 h2
  · have hge : 0x10000 ≤ c.toNat := by
      rcases not_or.mp h8 with ⟨ha, hb⟩
      omega
    have hlt : c.toNat < 0x110000 := by
      rcases char_valid_toNat c with h | ⟨_, h⟩
      · omega
      · exact h
    have hv : c.toNat - 0x10000 < 0x100000 := by omega
    set hi := 0xD800 + (c.toNat - 0x10000) / 1024 with hhi
    set lo := 0xDC00 + (c.toNat - 0x10000) % 1024 with hlo
    have hhiB : hi < 0x10000 := by omega
    have hloB : lo < 0x10000 := by omega
    have e1 := hexVal_hexDigitChar (hi / 4096 % 16) (Nat.mod_lt _ (by omega))
    have e2 := hexVal_hexDigitChar (hi / 256 % 16) (Nat.mod_lt _ (by omega))
    have e3 := hexVal_hexDigitChar (hi / 16 % 16) (Nat.mod_lt _ (by omega))
    have e4 := hexVal_hexDigitChar (hi % 16) (Nat.mod_lt _ (by omega))
    have f1 := hexVal_hexDigitChar (lo / 4096 % 16) (Nat.mod_lt _ (by omega))
    have f2 := hexVal_hexDigitChar (lo / 256 % 16) (Nat.mod_lt _ (by omega))
    have f3 := hexVal_hexDigitChar (lo / 16 % 16) (Nat.mod_lt _ (by omega))
    have f4 := hexVal_hexDigitChar (lo % 16) (Nat.mod_lt _ (by omega))
    have hrecHi : hi / 4096 % 16 * 4096 + hi / 256 % 16 * 256 +
        hi / 16 % 16 * 16 + hi % 16 = hi := by omega
    have hrecLo : lo / 4096 % 16 * 4096 + lo / 256 % 16 * 256 +
        lo / 16 % 16 * 16 + lo % 16 = lo := by omega
    have hn : 0xD800 ≤ hi / 4096 % 16 * 4096 + hi / 256 % 16 * 256 +
        hi / 16 % 16 * 16 + hi % 16 ∧
        hi / 4096 % 16 * 4096 + hi / 256 % 16 * 256 +
          hi / 16 % 16 * 16 + hi % 16 < 0xDC00 := by
      rw [hrecHi]
      omega
    have hm : 0xDC00 ≤ lo / 4096 % 16 * 4096 + lo / 256 % 16 * 256 +
        lo / 16 % 16 * 16 + lo % 16 ∧
        lo / 4096 % 16 * 4096 + lo / 256 % 16 * 256 +
          lo / 16 % 16 * 16 + lo % 16 < 0xE000 := by
      rw [hrecLo]
      omega
    have hcomb : (hi / 4096 % 16 * 4096 + hi / 256 % 16 * 256 +
        hi / 16 % 16 * 16 + hi % 16 - 0xD800) * 1024 +
        (lo / 4096 % 16 * 4096 + lo / 256 % 16 * 256 +
          lo / 16 % 16 * 16 + lo % 16 - 0xDC00) + 0x10000 = c.toNat := by
      rw [hrecHi, hrecLo]
      omega
    simp only [hex4, List.cons_append, List.append_assoc, List.nil_append]
    rw [unescape_u_pair _ _ _ _ _ _ _ _ _ _ _ _ _ _ _ _ t
      e1 e2 e3 e4 f1 f2 f3 f4 hn hm, hcomb, Char.ofNat_toNat]

/-- Decoding inverts `json.dumps` escaping of a whole string body. -/
theorem unescape_escape (s rest : List Char) :
    unescape (escape s ++ '"' :: rest) = some (s, rest) := by
  induction s with
  | nil => simpa [escape] using unescape_quote rest
  | cons c cs ih =>
    rw [escape, List.append_assoc, unescape_escapeChar, ih]
    rfl

theorem nl_not_mem_hex4 (n : Nat) : '\n' ∉ hex4 n := by
  intro hmem
  rw [hex4] at hmem
  simp only [List.mem_cons, List.not_mem_nil, or_false] at hmem
  rcases hmem with h | h | h | h
  all_goals exact hexDigitChar_ne_nl _ (Nat.mod_lt _ (by omega)) h.symm

theorem nl_not_mem_escapeChar (c : Char) : '\n' ∉ escapeChar c := by
  rw [escapeChar]
  split_ifs with h1 h2 h3 h4 h5 h6 h7 h8 h9
  · decide
  · decide
  · decide
  · decide
  · decide
  · decide
  · decide
  · intro hmem
    simp only [List.mem_cons] at hmem
    rcases hmem with h | h | h
    · exact absurd h (by decide)
    · exact absurd h (by decide)
    · exact nl_not_mem_hex4 _ h
  · intro hmem
    simp only [List.mem_singleton] at hmem
    exact h5 hmem.symm
  · intro hmem
    rcases List.mem_cons.mp hmem with h | hmem2
    · exact absurd h (by decide)
    rcases List.mem_cons.mp hmem2 with h | hmem3
    · exact absurd h (by decide)
    rcases List.mem_append.mp hmem3 with h | hmem4
    · exact nl_not_mem_hex4 _ h
    rcases List.mem_cons.mp hmem4 with h | hmem5
    · exact absurd h (by decide)
    rcases List.mem_cons.mp hmem5 with h | hmem6
    · exact absurd h (by decide)
    exact nl_not_mem_hex4 _ hmem6

theorem nl_not_mem_escape (s : List Char) : '\n' ∉ escape s := by
  induction s with
  | nil => simp [escape]
  | cons c cs ih =>
    rw [escape]
    intro h
    rcases List.mem_append.mp h with h | h
    · exact nl_not_mem_escapeChar c h
    · exact ih h

theorem nl_not_mem_renderNat (n : Nat) : '\n' ∉ renderNat n := by
  rw [renderNat]
  split_ifs with h
  · decide
  · intro hmem
    rcases List.mem_map.mp hmem with ⟨d, hd, he⟩
    exact digitChar_ne_nl d (natDigitsRev_lt10 n d (List.mem_reverse.mp hd)) he

theorem nl_not_mem_renderInt (i : Int) : '\n' ∉ renderInt i := by
  rw [renderInt]
  split_ifs with h
  · intro hmem
    simp only [List.mem_cons] at hmem
    rcases hmem with h' | h'
    · exact absurd h' (by decide)
    · exact nl_not_mem_renderNat _ h'
  · exact nl_not_mem_renderNat _

theorem dropLit_append (pat r : List Char) : dropLit pat (pat ++ r) = some r := by
  induction pat with
  | nil => rfl
  | cons p ps ih => simp [dropLit, ih]

theorem dropLit_self (pat : List Char) : dropLit pat pat = some [] := by
  simpa using dropLit_append pat []

theorem parseInt_renderInt_cons (i : Int) (c0 : Char) (tail : List Char)
    (h : c0.isDigit = false) :
    parseInt (renderInt i ++ c0 :: tail) = some (i, c0 :: tail) :=
  parseInt_renderInt i _ (fun c hc => by
    rw [List.head?_cons] at hc
    cases hc
    exact h)

/-- Re-parsing a metadata line emitted by the Framer recovers exactly the
supplied `timestamp`, `source` and `size_before_optimization` values. -/
theorem parseMetadata_renderMetadata (ts : Int) (s : List Char) (sz : Int) :
    parseMetadata (renderMetadata ts s sz) = some (ts, s, sz) := by
  have hq : lit "\",\"size_before_optimization\":" =
      '"' :: lit ",\"size_before_optimization\":" := rfl
  have hs : lit ",\"source\":\"" = ',' :: lit "\"source\":\"" := rfl
  have hc : lit "\x7d" = '\x7d' :: ([] : List Char) := rfl
  rw [renderMetadata, hq]
  simp only [List.append_assoc, List.cons_append]
  rw [parseMetadata, dropLit_append]
  dsimp only
  rw [hs, List.cons_append, parseInt_renderInt_cons ts ',' _ (by decide)]
  dsimp only
  rw [← List.cons_append, ← hs, dropLit_append]
  dsimp only
  rw [unescape_escape]
  dsimp only
  rw [dropLit_append]
  dsimp only
  rw [hc, parseInt_renderInt_cons sz '\x7d' [] (by decide)]
  dsimp only
  rw [← hc, dropLit_self]
  rfl

theorem nl_not_mem_renderMetadata (ts : Int) (s : List Char) (sz : Int) :
    '\n' ∉ renderMetadata ts s sz := by
  rw [renderMetadata]
  intro h
  rcases List.mem_append.mp h with h1 | h1
  · rcases List.mem_append.mp h1 with h2 | h2
    · rcases List.mem_append.mp h2 with h3 | h3
      · rcases List.mem_append.mp h3 with h4 | h4
        · rcases List.mem_append.mp h4 with h5 | h5
          · rcases List.mem_append.mp h5 with h6 | h6
            · exact absurd h6 (by decide)
            · exact nl_not_mem_renderInt ts h6
          · exact absurd h5 (by decide)
        · exact nl_not_mem_escape s h4
      · exact absurd h3 (by decide)
    · exact nl_not_mem_renderInt sz h2
  · exact absurd h1 (by decide)

theorem jsonIdxFrom_no_header (i : Nat) (ls : List (List Char))
    (h : ∀ l ∈ ls, isHeaderLine l = false) : jsonIdxFrom i ls = [] := by
  induction ls generalizing i with
  | nil => rfl
  | cons l ls' ih =>
    rw [jsonIdxFrom, if_neg (by simp [h l (List.mem_cons_self l ls')])]
    exact ih (i + 1) (fun x hx => h x (List.mem_cons_of_mem l hx))

/-- The last collected header index in `pre ++ [m] ++ post` is the position of
`m` whenever `m` is a header line and nothing in `post` is. -/
theorem jsonIdxFrom_last (i : Nat) (pre : List (List Char)) (m : List Char)
    (post : List (List Char)) (hm : isHeaderLine m = true)
    (hpost : ∀ l ∈ post, isHeaderLine l = false) :
    (jsonIdxFrom i (pre ++ m :: post)).getLast? = some (i + pre.length) := by
  induction pre generalizing i with
  | nil =>
    rw [List.nil_append, jsonIdxFrom, if_pos hm, jsonIdxFrom_no_header _ _ hpost]
    simp
  | cons l pre' ih =>
    have ih' := ih (i + 1)
    rw [List.cons_append, jsonIdxFrom]
    split_ifs with hl
    · rw [List.getLast?_cons, ih']
      simp only [Option.getD_some, List.length_cons, Option.some.injEq]
      omega
    · rw [ih']
      simp only [List.length_cons, Option.some.injEq]
      omega

/-- Line decomposition of a non-empty archive: every earlier record
contributes its metadata line, its body lines and one blank separator line;
the final record contributes its metadata line, its body lines and two blank
lines. -/
theorem splitNL_archiveContent (prev : List (List Char × List Char)) (m b : List Char)
    (hprev : ∀ r ∈ prev, '\n' ∉ r.1) (hm : '\n' ∉ m) :
    splitNL (archiveContent (prev ++ [(m, b)])) =
      (prev.map (fun r => r.1 :: (splitNL r.2 ++ [[]]))).flatten ++
        (m :: (splitNL b ++ [[], []])) := by
  induction prev with
  | nil =>
    show splitNL (framedRecord m b ++ archiveContent []) = _
    rw [show archiveContent [] = [] from rfl, List.append_nil, framedRecord,
      splitNL_noNLHead _ _ hm,
      show b ++ ['\n', '\n'] = b ++ '\n' :: ['\n'] from rfl, splitNL_append_sep,
      splitNL_cons_nl]
    rfl
  | cons r prev' ih =>
    obtain ⟨m', b'⟩ := r
    have hm' : '\n' ∉ m' := hprev (m', b') (List.mem_cons_self _ _)
    have hprev' : ∀ x ∈ prev', '\n' ∉ x.1 :=
      fun x hx => hprev x (List.mem_cons_of_mem _ hx)
    have ih' := ih hprev'
    show splitNL (framedRecord m' b' ++ archiveContent (prev' ++ [(m, b)])) = _
    rw [framedRecord, List.append_assoc, List.cons_append, List.append_assoc,
      show ['\n', '\n'] ++ archiveContent (prev' ++ [(m, b)]) =
        '\n' :: ('\n' :: archiveContent (prev' ++ [(m, b)])) from rfl,
      splitNL_noNLHead _ _ hm', splitNL_append_sep, splitNL_cons_nl, ih']
    simp [List.cons_append, List.append_assoc]

/-- On an archive of framed records, `restore_latest` replays the text after
the last metadata line: the last record's dump body plus the two trailing
newline characters of the framing. -/
theorem restoreExtract_archive (init : List (List Char × List Char)) (m b : List Char)
    (hinit : ∀ r ∈ init, '\n' ∉ r.1)
    (hm1 : isHeaderLine m = true) (hm2 : '\n' ∉ m)
    (hb : ∀ l ∈ splitNL b, isHeaderLine l = false) :
    restoreExtract (archiveContent (init ++ [(m, b)])) = b ++ ['\n', '\n'] := by
  have hdecomp := splitNL_archiveContent init m b hinit hm2
  have hpost : ∀ l ∈ splitNL b ++ [[], []], isHeaderLine l = false := by
    intro l hl
    rcases List.mem_append.mp hl with h | h
    · exact hb l h
    · rcases List.mem_cons.mp h with h' | h'
      · rw [h']; rfl
      · rcases List.mem_cons.mp h' with h'' | h''
        · rw [h'']; rfl
        · exact absurd h'' (List.not_mem_nil l)
    
  have hlast := jsonIdxFrom_last 0
    ((init.map (fun r => r.1 :: (splitNL r.2 ++ [[]]))).flatten) m
    (splitNL b ++ [[], []]) hm1 hpost
  rw [restoreExtract]
  rw [hdecomp, jsonLineIndices, hlast]
  dsimp only
  have hdrop :
      ((init.map (fun r => r.1 :: (splitNL r.2 ++ [[]]))).flatten ++
        (m :: (splitNL b ++ [[], []]))).drop
        (0 + ((init.map (fun r => r.1 :: (splitNL r.2 ++ [[]]))).flatten).length + 1) =
        splitNL b ++ [[], []] := by
    rw [show (init.map (fun r => r.1 :: (splitNL r.2 ++ [[]]))).flatten ++
        (m :: (splitNL b ++ [[], []])) =
        ((init.map (fun r => r.1 :: (splitNL r.2 ++ [[]]))).flatten ++ [m]) ++
          (splitNL b ++ [[], []]) by simp]
    refine List.drop_left' ?_
    simp
  rw [hdrop, joinNL_append _ _ (splitNL_ne_nil b) (by simp), joinNL_splitNL]
  rfl

/-- With no metadata header line anywhere, `restore_latest` replays the whole
content (legacy unframed archives). -/
theorem restoreExtract_no_header (content : List Char)
    (h : ∀ l ∈ splitNL content, isHeaderLine l = false) :
    restoreExtract content = content := by
  rw [restoreExtract, jsonLineIndices, jsonIdxFrom_no_header 0 _ h]
  rfl

/-! ### Helper lemmas about the pipeline -/

theorem compactionStep_archive (o : Oracle) (s : FsState) :
    (compactionStep o s).archive = s.archive := by
  unfold compactionStep fallbackVacuum
  split_ifs <;> rfl

theorem compactionStep_dbPath (o : Oracle) (s : FsState) :
    (compactionStep o s).dbPath = s.dbPath := by
  unfold compactionStep fallbackVacuum
  split_ifs <;> rfl

theorem framedRecord_ne_nil (m b : List Char) : framedRecord m b ≠ [] := by
  simp [framedRecord]

theorem producedList_append (xs ys : List (Oracle × FsState)) :
    producedList (xs ++ ys) = producedList xs ++ producedList ys := by
  induction xs with
  | nil => rfl
  | cons f fs ih =>
    rw [List.cons_append]
    cases h : pyReturn (optimize_and_dump f.1 f.2).1 with
    | some u => simp [producedList, h, ih]
    | none => simp [producedList, h, ih]

theorem mainSnapshot_exit (files : List (Oracle × FsState)) :
    (mainSnapshot files).1 = 0 := by
  rw [mainSnapshot]
  split_ifs <;> rfl

/-! ### Claim theorems -/

/-- C8: for every timestamp integer, source path string and size integer
supplied to the Metadata Framer, the emitted metadata line contains no
newline, and re-parsing it as JSON yields exactly the supplied `timestamp`,
`source` and `size_before_optimization` values. -/
theorem claim_C8_framing_round_trip (ts : Int) (src : List Char) (sz : Int) :
    parseMetadata (renderMetadata ts src sz) = some (ts, src, sz) ∧
      '\n' ∉ renderMetadata ts src sz :=
  ⟨parseMetadata_renderMetadata ts src sz, nl_not_mem_renderMetadata ts src sz⟩

/-- C3: on decompressed content in which no line's first non-whitespace
character is an opening brace, the Archive Reader treats the whole content as
one legacy unframed dump body and replays all of it. -/
theorem claim_C3_legacy_whole_content (content : List Char)
    (h : ∀ l ∈ splitNL content, isHeaderLine l = false) :
    restoreExtract content = content :=
  restoreExtract_no_header content h

theorem claim_C3_witness :
    (∀ l ∈ splitNL (lit "hello\nworld"), isHeaderLine l = false) ∧
      restoreExtract (lit "hello\nworld") = lit "hello\nworld" :=
  ⟨by decide, claim_C3_legacy_whole_content _ (by decide)⟩

/-- C2 as stated is false: on an archive holding one framed record with dump
body `"S"`, the Archive Reader returns `"S\n\n"` — the body plus the framing
delimiter — not the dump body byte-for-byte. -/
theorem claim_C2_counterexample :
    restoreExtract (archiveContent [(['\x7b', '\x7d'], ['S'])]) = ['S', '\n', '\n'] ∧
      restoreExtract (archiveContent [(['\x7b', '\x7d'], ['S'])]) ≠ ['S'] := by
  constructor
  · decide
  · decide

/-- C2 amended: on an archive of framed records `R1..Rn` (`n ≥ 1`, each
metadata line brace-headed and newline-free, no line of the last dump body
looking like a header), the Archive Reader returns the last record's dump
body followed by the two-newline framing delimiter — equivalently, exactly
the text after the last metadata header line — regardless of `n`. -/
theorem claim_C2_latest_body_plus_delimiter (init : List (List Char × List Char))
    (m b : List Char)
    (hinit : ∀ r ∈ init, isHeaderLine r.1 = true ∧ '\n' ∉ r.1)
    (hm1 : isHeaderLine m = true) (hm2 : '\n' ∉ m)
    (hb : ∀ l ∈ splitNL b, isHeaderLine l = false) :
    restoreExtract (archiveContent (init ++ [(m, b)])) = b ++ ['\n', '\n'] :=
  restoreExtract_archive init m b (fun r hr => (hinit r hr).2) hm1 hm2 hb

theorem claim_C2_witness :
    restoreExtract (archiveContent [(['\x7b', '\x7d'], ['S']), (['\x7b', '\x7d'], ['T'])]) =
      ['T', '\n', '\n'] := by
  have h := claim_C2_latest_body_plus_delimiter [(['\x7b', '\x7d'], ['S'])]
    ['\x7b', '\x7d'] ['T'] (by decide) (by decide) (by decide) (by decide)
  simpa using h

/-- C4: one successful run of `optimize_and_dump` makes the decompressed
archive equal to the old content (empty when the archive did not exist,
which is thereby created) followed by exactly one framed record — metadata
line, `LF`, dump body, `LF LF`; when the archive existed, its old content is
a strict prefix of the new content, so nothing is truncated or rewritten. -/
theorem claim_C4_append_only (o : Oracle) (s : FsState)
    (h : (optimize_and_dump o s).1 = DumpResult.success) :
    (optimize_and_dump o s).2.archive =
      some (s.archive.getD [] ++
        framedRecord (renderMetadata o.timestamp s.dbPath ((compactionStep o s).dbSize : Int))
          o.dumpOutput) ∧
    ∀ old, s.archive = some old →
      old <+: (optimize_and_dump o s).2.archive.getD [] ∧
      old ≠ (optimize_and_dump o s).2.archive.getD [] := by
  rw [optimize_and_dump] at h
  split_ifs at h with h1 h2 h3 h4 h5
  any_goals simp at h
  have harch : (optimize_and_dump o s).2.archive =
      some (s.archive.getD [] ++
        framedRecord (renderMetadata o.timestamp s.dbPath ((compactionStep o s).dbSize : Int))
          o.dumpOutput) := by
    rw [optimize_and_dump]
    simp only [if_neg h1, if_neg h2, if_neg h3, if_neg h4, if_neg h5]
    rw [compactionStep_archive]
  refine ⟨harch, ?_⟩
  intro old hold
  rw [harch, hold]
  simp only [Option.getD_some]
  constructor
  · exact List.prefix_append old _
  · intro he
    have h0 : old ++ ([] : List Char) = old ++
        framedRecord (renderMetadata o.timestamp s.dbPath ((compactionStep o s).dbSize : Int))
          o.dumpOutput := by
      rw [List.append_nil]
      exact he
    exact framedRecord_ne_nil _ _ (List.append_cancel_left h0).symm

theorem claim_C4_witness :
    (optimize_and_dump allOkOracle oldArchiveDb).2.archive =
      some (lit "OLD\n" ++ framedRecord (renderMetadata 5 (lit "database.db") 500) ['S']) ∧
    lit "OLD\n" <+: (optimize_and_dump allOkOracle oldArchiveDb).2.archive.getD [] ∧
    lit "OLD\n" ≠ (optimize_and_dump allOkOracle oldArchiveDb).2.archive.getD [] := by
  have h := claim_C4_append_only allOkOracle oldArchiveDb (by decide)
  have h2 := h.2 (lit "OLD\n") rfl
  refine ⟨?_, h2.1, h2.2⟩
  have h1 := h.1
  simpa [oldArchiveDb, exampleDb, allOkOracle, compactionStep, fallbackVacuum] using h1

/-- C5 as stated is false: a failure of `con.commit()` (line 62) is caught
only by the per-file handler, so the dump for that file never runs even
though the dump subprocess itself would have succeeded, and no record is
appended. -/
theorem claim_C5_counterexample :
    commitFailOracle.dumpFails = false ∧
    (optimize_and_dump commitFailOracle exampleDb).1 = DumpResult.unexpectedError ∧
    (optimize_and_dump commitFailOracle exampleDb).1 ≠ DumpResult.success ∧
    (optimize_and_dump commitFailOracle exampleDb).1 ≠ DumpResult.dumpError ∧
    (optimize_and_dump commitFailOracle exampleDb).2.archive = exampleDb.archive := by
  refine ⟨rfl, ?_, ?_, ?_, ?_⟩ <;> decide

/-- C5 amended: failures of the plan-refresh hint, of every step of the
atomic `VACUUM INTO` compaction (including the temp-file replace), and of
the fallback in-place `VACUUM` are swallowed and the dump extraction still
runs; but a failure of the initial connection, of the pre-compaction commit,
or of the final close is caught only by the per-file handler and skips the
dump (the function itself still never raises — every path returns). -/
theorem claim_C5_compaction_failures_swallowed (o : Oracle) (s : FsState)
    (hdb : s.dbExists = true) (hc : o.connectFails = false)
    (hcm : o.commitFails = false) (hcl : o.finalCloseFails = false) :
    (optimize_and_dump o s).1 =
      (if o.dumpFails then DumpResult.dumpError else DumpResult.success) := by
  rw [optimize_and_dump]
  simp only [hdb, hc, hcm, hcl, Bool.not_true, Bool.false_eq_true, if_false]
  split_ifs <;> rfl

theorem claim_C5_witness :
    (optimize_and_dump { allOkOracle with vacuumIntoFails := true, fallbackFails := true }
      exampleDb).1 = DumpResult.success := by
  have h := claim_C5_compaction_failures_swallowed
    { allOkOracle with vacuumIntoFails := true, fallbackFails := true } exampleDb
    rfl rfl rfl rfl
  simpa using h

/-- C6 as stated is false: the caller of `optimize_and_dump` receives `None`
both when the database file is absent and when the dump subprocess fails, so
the two cases are not distinguishable through the returned value. -/
theorem claim_C6_counterexample :
    pyReturn (optimize_and_dump allOkOracle absentDb).1 =
      pyReturn (optimize_and_dump dumpFailOracle exampleDb).1 ∧
    pyReturn (optimize_and_dump allOkOracle absentDb).1 = none := by
  constructor <;> decide

/-- C6 amended: a missing database file returns `None` with no diagnostic and
nothing appended; a dump-subprocess failure also returns `None` and appends
nothing, but prints an extraction-failure diagnostic — the two cases are
told apart only by the diagnostic output, not by the returned value. -/
theorem claim_C6_absent_vs_extraction_failure (o : Oracle) (s s' : FsState)
    (habs : s.dbExists = false)
    (h1 : s'.dbExists = true) (h2 : o.connectFails = false)
    (h3 : o.commitFails = false) (h4 : o.finalCloseFails = false)
    (h5 : o.dumpFails = true) :
    optimize_and_dump o s = (DumpResult.noDb, s) ∧
    pyReturn DumpResult.noDb = none ∧ logOf DumpResult.noDb = [] ∧
    (optimize_and_dump o s').1 = DumpResult.dumpError ∧
    pyReturn DumpResult.dumpError = none ∧
    logOf DumpResult.dumpError = [LogMsg.extractionError] ∧
    (optimize_and_dump o s').2.archive = s'.archive := by
  refine ⟨?_, rfl, rfl, ?_, rfl, rfl, ?_⟩
  · rw [optimize_and_dump]
    simp [habs]
  · rw [optimize_and_dump]
    simp [h1, h2, h3, h4, h5]
  · rw [optimize_and_dump]
    simp [h1, h2, h3, h4, h5, compactionStep_archive]

theorem claim_C6_witness :
    optimize_and_dump dumpFailOracle absentDb = (DumpResult.noDb, absentDb) ∧
    (optimize_and_dump dumpFailOracle exampleDb).1 = DumpResult.dumpError ∧
    (optimize_and_dump dumpFailOracle exampleDb).2.archive = exampleDb.archive := by
  have h := claim_C6_absent_vs_extraction_failure dumpFailOracle absentDb exampleDb
    rfl rfl rfl rfl rfl rfl
  exact ⟨h.1, h.2.2.2.1, h.2.2.2.2.2.2⟩

/-- C7: each configured file is processed independently — the produced-record
list over `pre ++ f :: post` is the concatenation of the per-segment lists,
so a failure on one file never prevents later files from being processed and
appended; when no file produces a record the orchestrator reports the
"nothing to do" message and exits 0; and the no-argument invocation always
exits 0. -/
theorem claim_C7_failure_isolation (pre : List (Oracle × FsState))
    (f : Oracle × FsState) (post : List (Oracle × FsState))
    (files : List (Oracle × FsState)) (prog : String) (r : Bool) :
    producedList (pre ++ f :: post) =
      producedList pre ++ producedList [f] ++ producedList post ∧
    (producedList files = [] → mainSnapshot files = (0, true)) ∧
    (mainSnapshot files).1 = 0 ∧
    mainEntry [prog] r files = (0, MainAction.snapshotAct) := by
  refine ⟨?_, ?_, mainSnapshot_exit files, ?_⟩
  · rw [show f :: post = [f] ++ post from rfl, producedList_append, producedList_append,
      List.append_assoc]
  · intro hempty
    rw [mainSnapshot, hempty]
    rfl
  · rw [mainEntry, if_neg (by simp)]
    rw [show (mainSnapshot files).1 = 0 from mainSnapshot_exit files]

theorem claim_C7_witness :
    producedList [noDbFile] = [] ∧ mainSnapshot [noDbFile] = (0, true) ∧
    mainEntry ["prog"] true [noDbFile] = (0, MainAction.snapshotAct) := by
  have h := claim_C7_failure_isolation [] noDbFile [] [noDbFile] "prog" true
  exact ⟨by decide, h.2.1 (by decide), h.2.2.2⟩

/-- C9 as stated is false: when `VACUUM INTO` succeeds but the close/replace
step then fails, `optimize_and_dump` completes normally (here even returning
success) yet the `.vacuuming` temp file is left orphaned — no exit path
removes it. -/
theorem claim_C9_counterexample :
    (optimize_and_dump replaceFailOracle exampleDb).1 = DumpResult.success ∧
    (optimize_and_dump replaceFailOracle exampleDb).2.tempExists = true ∧
    exampleDb.tempExists = false := by
  refine ⟨?_, ?_, rfl⟩ <;> decide

/-- C9 amended: starting without a temp file, the run ends with the temp file
present exactly when the compaction was reached, `VACUUM INTO` succeeded in
creating it, and the close/replace step then failed; on a successful replace
it is renamed over the database, and when `VACUUM INTO` itself fails it is
never created — but on the close/replace failure path it is left orphaned
even though the operation exits ordinarily. -/
theorem claim_C9_temp_file_fate (o : Oracle) (s : FsState)
    (h0 : s.tempExists = false) :
    (optimize_and_dump o s).2.tempExists = true ↔
      s.dbExists = true ∧ o.connectFails = false ∧ o.commitFails = false ∧
        o.vacuumIntoFails = false ∧ o.replaceFails = true := by
  rw [optimize_and_dump]
  unfold compactionStep fallbackVacuum
  split_ifs <;> simp_all

theorem claim_C9_witness :
    (optimize_and_dump replaceFailOracle exampleDb).2.tempExists = true := by
  exact (claim_C9_temp_file_fate replaceFailOracle exampleDb rfl).mpr
    ⟨rfl, rfl, rfl, rfl, rfl⟩

/-- C10: with a first argument `"--restore"` but an argument count other than
four, or with any first argument other than `"--restore"`, `"-h"` and
`"--help"`, the entry point reports no usage error and attempts no restore:
it falls through to the snapshot orchestrator and exits 0. -/
theorem claim_C10_fallthrough_to_snapshot (argv : List String) (r : Bool)
    (files : List (Oracle × FsState)) (hlen : 2 ≤ argv.length)
    (h : (argv.getD 1 "" = "--restore" ∧ argv.length ≠ 4) ∨
      (argv.getD 1 "" ≠ "--restore" ∧ argv.getD 1 "" ≠ "-h" ∧
        argv.getD 1 "" ≠ "--help")) :
    mainEntry argv r files = (0, MainAction.snapshotAct) := by
  rw [mainEntry, if_pos (by omega)]
  rcases h with ⟨h1, h2⟩ | ⟨h1, h2, h3⟩
  · have hnot : ¬(argv.getD 1 "" = "-h" ∨ argv.getD 1 "" = "--help") := by
      intro hc
      rcases hc with hc | hc
      · exact absurd (h1.symm.trans hc) (by decide)
      · exact absurd (h1.symm.trans hc) (by decide)
    rw [if_neg (fun hc => h2 hc.2), if_neg hnot,
      show (mainSnapshot files).1 = 0 from mainSnapshot_exit files]
  · have hnot : ¬(argv.getD 1 "" = "-h" ∨ argv.getD 1 "" = "--help") := by
      intro hc
      rcases hc with hc | hc
      · exact h2 hc
      · exact h3 hc
    rw [if_neg (fun hc => h1 hc.1), if_neg hnot,
      show (mainSnapshot files).1 = 0 from mainSnapshot_exit files]

theorem claim_C10_witness :
    mainEntry ["prog", "--restore", "x"] false [] = (0, MainAction.snapshotAct) :=
  claim_C10_fallthrough_to_snapshot ["prog", "--restore", "x"] false []
    (by decide) (Or.inl ⟨rfl, by decide⟩)

/-- C1 is violated by the code: `orig = db_path.stat().st_size` (line 80) is
read *after* the `PRAGMA optimize` / `VACUUM` steps, so on a fully successful
snapshot of a 1000-byte database that compaction shrinks to 500 bytes the
metadata line written into the archive carries
`size_before_optimization = 500` — the post-compaction size — not the
1000 bytes the file had immediately before compaction. -/
theorem claim_C1_records_post_compaction_size :
    exampleDb.dbSize = 1000 ∧ allOkOracle.compactedSize = 500 ∧
    (optimize_and_dump allOkOracle exampleDb).1 = DumpResult.success ∧
    (optimize_and_dump allOkOracle exampleDb).2.archive =
      some (framedRecord (renderMetadata 5 (lit "database.db") 500) ['S']) ∧
    parseMetadata (renderMetadata 5 (lit "database.db") 500) =
      some (5, lit "database.db", 500) ∧
    (500 : Int) ≠ 1000 := by
  refine ⟨rfl, rfl, by decide, ?_, parseMetadata_renderMetadata 5 (lit "database.db") 500,
    by decide⟩
  simp [optimize_and_dump, compactionStep, fallbackVacuum, allOkOracle, exampleDb]
